import Mathlib

/-!
Verification development for the MNA circuit simulator in src/app.py.

The Python program is shallowly embedded: parsing is modelled over character
lists with exact rational arithmetic standing in for Python floats, the MNA
matrices are modelled as functions over node indices, np.linalg.solve is
modelled as Cramer solving guarded by an exact singularity test, and Python
exceptions become an explicit error type.  AC phasor values are kept in the
syntactic magnitude/phase form produced by the parser; their complex amplitude
is recovered by a separate semantic map, matching magnitude * exp(1j * radians)
of line 41.
-/

namespace CircuitSim

/-- Errors raised by the Python runtime while the program executes: IndexError
from out-of-range list indexing, ValueError from int(), float(), max() on an
empty sequence or np.zeros with a negative size, and numpy.linalg.LinAlgError
from np.linalg.solve on a singular matrix. -/
inductive PyErr where
  | indexError : PyErr
  | valueError : String → PyErr
  | linAlgError : PyErr
deriving DecidableEq

/-- Numeric value of a decimal digit character. -/
def digitVal (c : Char) : ℕ := c.toNat - 48

/-- Natural number denoted by a list of decimal digits, most significant first. -/
def digitsVal (l : List Char) : ℕ := l.foldl (fun a c => 10 * a + digitVal c) 0

/-- Nonempty all-digit run check returning its value; the digit runs accepted by
Python int() and by the digit fields of float(). -/
def digitsOnly? (l : List Char) : Option ℕ :=
  if l.isEmpty then none
  else if l.all Char.isDigit then some (digitsVal l) else none

/-- Python int(string) on a whitespace-free token: optional sign followed by a
nonempty decimal digit run.  (Underscore separators and surrounding whitespace,
which Python also tolerates, do not occur in split tokens of the claims and are
not modelled.) -/
def pyIntL? : List Char → Option ℤ
  | '-' :: t => (digitsOnly? t).map (fun n => -(n : ℤ))
  | '+' :: t => (digitsOnly? t).map (fun n => (n : ℤ))
  | t => (digitsOnly? t).map (fun n => (n : ℤ))

/-- Python int() applied to a string token. -/
def pyInt? (s : String) : Option ℤ := pyIntL? s.toList

/-- Mantissa denoted by integer-part digits and fractional-part digits. -/
def mantissaVal (ip fp : List Char) : ℚ :=
  (digitsVal ip : ℚ) + (digitsVal fp : ℚ) / 10 ^ fp.length

/-- Exponent digits with optional sign, scaling the mantissa by a power of ten. -/
def expDigits : List Char → ℚ → Option ℚ
  | '-' :: t, q => (digitsOnly? t).map (fun n => q / 10 ^ n)
  | '+' :: t, q => (digitsOnly? t).map (fun n => q * 10 ^ n)
  | t, q => (digitsOnly? t).map (fun n => q * 10 ^ n)

/-- Optional exponent suffix of a Python float literal: nothing, or e/E followed
by optionally signed digits. -/
def expPart : List Char → ℚ → Option ℚ
  | [], q => some q
  | 'e' :: t, q => expDigits t q
  | 'E' :: t, q => expDigits t q
  | _, _ => none

/-- Unsigned Python float literal: digits with optional fraction, or a bare
fraction, followed by an optional exponent; at least one mantissa digit. -/
def pyFloatUnsigned (l : List Char) : Option ℚ :=
  let ip := l.takeWhile Char.isDigit
  let r1 := l.dropWhile Char.isDigit
  match r1 with
  | '.' :: r2 =>
    let fp := r2.takeWhile Char.isDigit
    let r3 := r2.dropWhile Char.isDigit
    if ip.isEmpty && fp.isEmpty then none else expPart r3 (mantissaVal ip fp)
  | r1x => if ip.isEmpty then none else expPart r1x (mantissaVal ip [])

/-- Python float(string) on a whitespace-free token: optional sign, then an
unsigned decimal literal.  (inf, nan and underscore separators are not
modelled; no token in the claims uses them.)  Exact rational arithmetic stands
in for the IEEE double Python produces. -/
def pyFloatL? : List Char → Option ℚ
  | '-' :: t => (pyFloatUnsigned t).map Neg.neg
  | '+' :: t => pyFloatUnsigned t
  | t => pyFloatUnsigned t

/-- Python float() applied to a string token. -/
def pyFloat? (s : String) : Option ℚ := pyFloatL? s.toList

/-- Split at newline characters; models str.splitlines for the newline-separated
netlists of the claims.  (Python drops a trailing empty piece; here it survives
as an empty line, which the parser skips, so the parse result agrees.) -/
def splitLinesAux : List Char → List Char → List String
  | [], cur => [String.mk cur.reverse]
  | '\n' :: t, cur => String.mk cur.reverse :: splitLinesAux t []
  | c :: t, cur => splitLinesAux t (c :: cur)

/-- Lines of the netlist text, as in file_content.splitlines() of line 26. -/
def pySplitLines (s : String) : List String := splitLinesAux s.toList []

/-- Split on whitespace runs dropping empty pieces; models str.split() with no
arguments, as used on line 30. -/
def splitWsAux : List Char → List Char → List String
  | [], cur => if cur.isEmpty then [] else [String.mk cur.reverse]
  | c :: t, cur =>
    if c.isWhitespace then
      if cur.isEmpty then splitWsAux t []
      else String.mk cur.reverse :: splitWsAux t []
    else splitWsAux t (c :: cur)

/-- Tokens of one netlist line. -/
def pySplitWs (s : String) : List String := splitWsAux s.toList []

/-- Python str.strip() with no arguments: remove leading and trailing
whitespace, as used on line 27. -/
def pyStrip (s : String) : String :=
  String.mk (((s.toList.dropWhile Char.isWhitespace).reverse.dropWhile
    Char.isWhitespace).reverse)

/-- Comment test of line 28: the stripped line starts with the hash character. -/
def startsWithHash (s : String) : Bool :=
  match s.toList with
  | '#' :: _ => true
  | _ => false

/-- Value stored for an element parsed in AC mode: either a bare real literal
(a Python float) or a magnitude and phase-in-degrees pair (the Python complex
magnitude * exp(1j * deg2rad(phase)) of line 41, kept here in the syntactic
form that determines it).  acToComplex recovers the complex amplitude. -/
inductive ACVal where
  | real : ℚ → ACVal
  | phasor : ℚ → ℚ → ACVal
deriving DecidableEq

/-- Complex amplitude denoted by a parsed AC value: a bare real is the real
promoted to complex, and a phasor is magnitude * exp(1j * (degrees * pi / 180)),
exactly the expression of line 41 (np.deg2rad d = d * pi / 180). -/
noncomputable def acToComplex : ACVal → ℂ
  | .real r => ((r : ℝ) : ℂ)
  | .phasor m d => ((m : ℝ) : ℂ) * Complex.exp ((((d : ℝ) * Real.pi / 180 : ℝ) : ℂ) * Complex.I)

/-- Characters matched by the [0-9.] classes of the phasor regex on line 37. -/
def isDigitDot (c : Char) : Bool := c.isDigit || c = '.'

/-- The regex match of line 37. -/
def phasorMatch (l : List Char) : Option (List Char × List Char) :=
  let g1 := l.takeWhile isDigitDot
  let r1 := l.dropWhile isDigitDot
  if g1.isEmpty then none
  else
    match r1 with
    | '∠' :: r2 =>
      match r2 with
      | '-' :: r3 =>
        let g2 := r3.takeWhile isDigitDot
        if g2.isEmpty then none else some (g1, '-' :: g2)
      | '+' :: r3 =>
        let g2 := r3.takeWhile isDigitDot
        if g2.isEmpty then none else some (g1, '+' :: g2)
      | r2x =>
        let g2 := r2x.takeWhile isDigitDot
        if g2.isEmpty then none else some (g1, g2)
    | _ => none

/-- AC-mode value conversion of parse_circuit_file, lines 35-43: try the phasor
regex; on a match run float() on both captured groups and keep the phasor,
otherwise fall back to float() on the whole token. -/
def parseValAC (s : String) : Except PyErr ACVal :=
  match phasorMatch s.toList with
  | some (g1, g2) =>
    match pyFloatL? g1, pyFloatL? g2 with
    | some m, some d => .ok (.phasor m d)
    | _, _ => .error (.valueError "could not convert string to float")
  | none =>
    match pyFloatL? s.toList with
    | some q => .ok (.real q)
    | none => .error (.valueError "could not convert string to float")

/-- DC-mode value conversion, lines 44-45: float() on the token. -/
def parseValDC (s : String) : Except PyErr ℚ :=
  match pyFloat? s with
  | some q => .ok q
  | none => .error (.valueError "could not convert string to float")

/-- Split at the phasor character, for parse_value's val_str.split. -/
def splitAngleAux : List Char → List Char → List (List Char)
  | [], cur => [cur.reverse]
  | '∠' :: t, cur => cur.reverse :: splitAngleAux t []
  | c :: t, cur => splitAngleAux t (c :: cur)

/-- parse_value, lines 9-18: the module-level helper that splits on the phasor
character and uses cmath.rect(mag, radians(ang)), which denotes the same
complex amplitude as acToComplex applied to the phasor.  parse_circuit_file
does not call it (it has its own inline copy of the logic), but app.py defines
it regardless of mode. -/
def parse_value (s : String) : Except PyErr ACVal :=
  if s.toList.contains '∠' then
    match splitAngleAux s.toList [] with
    | [magS, angS] =>
      match pyFloatL? magS, pyFloatL? angS with
      | some m, some d => .ok (.phasor m d)
      | _, _ => .error (.valueError "could not convert string to float")
    | _ => .error (.valueError "too many values to unpack")
  else
    match pyFloatL? s.toList with
    | some q => .ok (.real q)
    | none => .error (.valueError "could not convert string to float")

/-- A parsed netlist element: the tuple (name, n1, n2, val) that
parse_circuit_file appends to the resistor or voltage-source list.  Node
numbers come from Python int() and may be any integer. -/
structure Elem (ν : Type) where
  name : String
  n1 : ℤ
  n2 : ℤ
  val : ν
deriving DecidableEq

/-- Per-line processing of parse_circuit_file, lines 30-50, for one stripped
non-comment line: index parts[0..3] in Python's evaluation order (IndexError
when a token is missing), convert node tokens with int() (ValueError on
failure), convert the value token with the mode's value rule, then dispatch on
the upper-cased first character of the name: R yields a resistor (inl), V a
voltage source (inr), and any other name yields no element at all. -/
def processTokens {ν : Type} (valParse : String → Except PyErr ν) :
    List String → Except PyErr (Option (Elem ν ⊕ Elem ν))
  | [] => .error .indexError
  | name :: rest =>
    match rest with
    | [] => .error .indexError
    | n1s :: rest2 =>
      match pyInt? n1s with
      | none => .error (.valueError "invalid literal for int() with base 10")
      | some a =>
        match rest2 with
        | [] => .error .indexError
        | n2s :: rest3 =>
          match pyInt? n2s with
          | none => .error (.valueError "invalid literal for int() with base 10")
          | some b =>
            match rest3 with
            | [] => .error .indexError
            | valS :: _ =>
              match valParse valS with
              | .error e => .error e
              | .ok v =>
                let c := (name.toList.headD ' ').toUpper
                if c = 'R' then .ok (some (.inl ⟨name, a, b, v⟩))
                else if c = 'V' then .ok (some (.inr ⟨name, a, b, v⟩))
                else .ok none

/-- Line loop of parse_circuit_file, lines 25-51: strip each line, skip blanks
and #-comments, process the rest in order, accumulating resistors and voltage
sources separately while preserving input order. -/
def parseLinesAux {ν : Type} (valParse : String → Except PyErr ν) :
    List String → List (Elem ν) → List (Elem ν) →
    Except PyErr (List (Elem ν) × List (Elem ν))
  | [], rs, vs => .ok (rs, vs)
  | l :: t, rs, vs =>
    let line := pyStrip l
    if line = "" then parseLinesAux valParse t rs vs
    else if startsWithHash line then parseLinesAux valParse t rs vs
    else
      match processTokens valParse (pySplitWs line) with
      | .error e => .error e
      | .ok none => parseLinesAux valParse t rs vs
      | .ok (some (.inl r)) => parseLinesAux valParse t (rs ++ [r]) vs
      | .ok (some (.inr v)) => parseLinesAux valParse t rs (vs ++ [v])

/-- parse_circuit_file with mode DC. -/
def parse_circuit_file_DC (content : String) :
    Except PyErr (List (Elem ℚ) × List (Elem ℚ)) :=
  parseLinesAux parseValDC (pySplitLines content) [] []

/-- parse_circuit_file with mode AC. -/
def parse_circuit_file_AC (content : String) :
    Except PyErr (List (Elem ACVal) × List (Elem ACVal)) :=
  parseLinesAux parseValAC (pySplitLines content) [] []

/-- Pointwise increment model of the numpy in-place update M[a, b] += v. -/
def addAt {α : Type} [Add α] (M : ℕ → ℕ → α) (a b : ℕ) (v : α) : ℕ → ℕ → α :=
  fun i j => if i = a ∧ j = b then M i j + v else M i j

/-- Pointwise assignment model of the numpy in-place update M[a, b] = v. -/
def setAt {α : Type} (M : ℕ → ℕ → α) (a b : ℕ) (v : α) : ℕ → ℕ → α :=
  fun i j => if i = a ∧ j = b then v else M i j

/-- Assignment model of the vector update z[a] = v. -/
def setVecAt {α : Type} (z : ℕ → α) (a : ℕ) (v : α) : ℕ → α :=
  fun i => if i = a then v else z i

/-- Matrix row or column index of a non-ground node: Python writes G[n1-1, ...]
and node numbers ≥ 1 land on row n1-1.  (For a negative node number Python
would index from the end of the array; no claim exercises that, and the
quantified simulation theorems below restrict to nonnegative nodes.) -/
def rowIdx (n : ℤ) : ℕ := (n - 1).toNat

/-- Resistor stamp of lines 68-74: with g = 1/val, add g on the diagonal for
each non-ground terminal, and subtract g at the two symmetric off-diagonal
positions when both terminals are non-ground. -/
def stampResistor {α : Type} [Field α] (G : ℕ → ℕ → α) (e : Elem α) : ℕ → ℕ → α :=
  let g := 1 / e.val
  let G1 := if e.n1 ≠ 0 then addAt G (rowIdx e.n1) (rowIdx e.n1) g else G
  let G2 := if e.n2 ≠ 0 then addAt G1 (rowIdx e.n2) (rowIdx e.n2) g else G1
  if e.n1 ≠ 0 ∧ e.n2 ≠ 0 then
    addAt (addAt G2 (rowIdx e.n1) (rowIdx e.n2) (-g)) (rowIdx e.n2) (rowIdx e.n1) (-g)
  else G2

/-- Resistor loop of lines 67-74 over the zero-initialised G of line 63. -/
def buildGAux {α : Type} [Field α] (G : ℕ → ℕ → α) : List (Elem α) → (ℕ → ℕ → α)
  | [] => G
  | e :: t => buildGAux (stampResistor G e) t

/-- The filled conductance entries. -/
def buildG {α : Type} [Field α] (rs : List (Elem α)) : ℕ → ℕ → α :=
  buildGAux (fun _ _ => 0) rs

/-- Voltage-source stamp for the k-th source, lines 78-79: assign B[n1-1,k] = 1
then B[n2-1,k] = -1, each only for a non-ground terminal; when both terminals
are the same non-ground node the second assignment overwrites the first. -/
def stampSource {α : Type} [Field α] (B : ℕ → ℕ → α) (k : ℕ) (e : Elem α) :
    ℕ → ℕ → α :=
  let B1 := if e.n1 ≠ 0 then setAt B (rowIdx e.n1) k 1 else B
  if e.n2 ≠ 0 then setAt B1 (rowIdx e.n2) k (-1) else B1

/-- Source loop of lines 77-79 with the enumerate counter made explicit. -/
def buildBAux {α : Type} [Field α] (k : ℕ) (B : ℕ → ℕ → α) :
    List (Elem α) → (ℕ → ℕ → α)
  | [] => B
  | e :: t => buildBAux (k + 1) (stampSource B k e) t

/-- The filled incidence entries over the zero-initialised B of line 64. -/
def buildB {α : Type} [Field α] (vs : List (Elem α)) : ℕ → ℕ → α :=
  buildBAux 0 (fun _ _ => 0) vs

/-- Right-hand-side loop of line 80: z[num_nodes + k] = value of source k. -/
def buildzAux {α : Type} (n k : ℕ) (z : ℕ → α) : List (Elem α) → (ℕ → α)
  | [] => z
  | e :: t => buildzAux n (k + 1) (setVecAt z (n + k) e.val) t

/-- The filled right-hand side over the zero-initialised z of line 65. -/
def buildz {α : Type} [Field α] (n : ℕ) (vs : List (Elem α)) : ℕ → α :=
  buildzAux n 0 (fun _ => 0) vs

/-- Python max(max(n1, n2) for all elements), line 58: none on an empty element
list, where max() raises ValueError, otherwise the maximum node number. -/
def maxNodeZ {ν : Type} : List (Elem ν) → Option ℤ
  | [] => none
  | e :: t => some (t.foldl (fun a x => max a (max x.n1 x.n2)) (max e.n1 e.n2))

/-- Block structure of A = np.block([[G, B], [C, D]]) with C the transpose of B
and D zero, lines 83-85, as a function on unbounded indices with n the node
count. -/
def blockA {α : Type} [Field α] (n : ℕ) (Gf Bf : ℕ → ℕ → α) (i j : ℕ) : α :=
  if i < n then (if j < n then Gf i j else Bf i (j - n))
  else (if j < n then Bf j (i - n) else 0)

/-- The assembled (n+m)-square MNA matrix. -/
def Amat {α : Type} [Field α] (rs vs : List (Elem α)) (n m : ℕ) :
    Matrix (Fin (n + m)) (Fin (n + m)) α :=
  Matrix.of fun i j => blockA n (buildG rs) (buildB vs) (i : ℕ) (j : ℕ)

/-- The assembled right-hand side of length n+m. -/
def zvec {α : Type} [Field α] (n m : ℕ) (vs : List (Elem α)) : Fin (n + m) → α :=
  fun i => buildz n vs (i : ℕ)

/-- Determinant by Laplace expansion along the first row; a computable
determinant equal to Matrix.det (lemma myDet_eq_det below). -/
def myDet {α : Type} [Field α] : {k : ℕ} → Matrix (Fin k) (Fin k) α → α
  | 0, _ => 1
  | k + 1, A =>
    ∑ j : Fin (k + 1), (-1) ^ (j : ℕ) * A 0 j * myDet (A.submatrix Fin.succ j.succAbove)

/-- np.linalg.solve of line 88: numpy raises LinAlgError exactly on a singular
matrix, and otherwise returns the unique solution, written here by Cramer's
rule (the LU solve computes the same vector; arithmetic is exact in this
model, so the ill-conditioned-but-regular float cases do not arise). -/
def npSolve {α : Type} [Field α] [DecidableEq α] {k : ℕ}
    (A : Matrix (Fin k) (Fin k) α) (z : Fin k → α) : Except PyErr (Fin k → α) :=
  if myDet A = 0 then .error .linAlgError
  else .ok (fun j => myDet (A.updateColumn j z) / myDet A)

/-- Structured content of the result simulate_circuit returns: either the
early-return diagnostic string of line 90, or the quantities formatted into
the report of lines 96-124 — node voltages V(1..N), source currents
I(V1..VM) in parse order, and resistor currents (v1 - v2)/R directed from n1
to n2 with V(0) = 0. -/
inductive SimOutput (α : Type) where
  | diagnostic : String → SimOutput α
  | report : List α → List α → List α → SimOutput α
deriving DecidableEq

/-- simulate_circuit after parsing, lines 58-124: size the system from the
maximum node number (a Python ValueError from max() on an empty element list,
or from np.zeros on a negative size), assemble A and z, solve, and on
LinAlgError return the diagnostic of line 90 in place of a report. -/
def simulateElems {α : Type} [Field α] [DecidableEq α] (rs vs : List (Elem α)) :
    Except PyErr (SimOutput α) :=
  match maxNodeZ (rs ++ vs) with
  | none => .error (.valueError "max() arg is an empty sequence")
  | some nz =>
    if nz < 0 then .error (.valueError "negative dimensions are not allowed")
    else
      let n := nz.toNat
      let m := vs.length
      match npSolve (Amat rs vs n m) (zvec n m vs) with
      | .error _ => .ok (.diagnostic
          "❌ Circuit cannot be solved (singular matrix). Check connections.")
      | .ok x =>
        let voltages := List.ofFn (fun i : Fin n => x (Fin.castAdd m i))
        let sourceCurrents := List.ofFn (fun s : Fin m => x (Fin.natAdd n s))
        let resistorCurrents := rs.map (fun e =>
          let v1 := if e.n1 ≠ 0 then voltages.getD (rowIdx e.n1) 0 else 0
          let v2 := if e.n2 ≠ 0 then voltages.getD (rowIdx e.n2) 0 else 0
          (v1 - v2) / e.val)
        .ok (.report voltages sourceCurrents resistorCurrents)

/-- simulate_circuit in DC mode, lines 56-124: parse, then simulate. -/
def simulate_circuit_DC (content : String) : Except PyErr (SimOutput ℚ) :=
  match parse_circuit_file_DC content with
  | .error e => .error e
  | .ok (rs, vs) => simulateElems rs vs

/-- Node voltage V(i), 1-indexed, as listed in the report; 0 when the
simulation produced no report. -/
def reportVoltage {α : Type} [Zero α] : Except PyErr (SimOutput α) → ℕ → α
  | .ok (.report v _ _), i => v.getD (i - 1) 0
  | _, _ => 0

/-- Per-resistor contribution to the conductance entry (i, j), written the way
§4.3 of the spec states the stamp: g = 1/val on the diagonal entries of the
non-ground terminals, minus g at the two symmetric off-diagonal positions when
both terminals are non-ground. -/
def gContrib {α : Type} [Field α] (e : Elem α) (i j : ℕ) : α :=
  (if e.n1 ≠ 0 ∧ i = rowIdx e.n1 ∧ j = rowIdx e.n1 then 1 / e.val else 0)
  + (if e.n2 ≠ 0 ∧ i = rowIdx e.n2 ∧ j = rowIdx e.n2 then 1 / e.val else 0)
  - (if e.n1 ≠ 0 ∧ e.n2 ≠ 0 ∧ i = rowIdx e.n1 ∧ j = rowIdx e.n2 then 1 / e.val else 0)
  - (if e.n1 ≠ 0 ∧ e.n2 ≠ 0 ∧ i = rowIdx e.n2 ∧ j = rowIdx e.n1 then 1 / e.val else 0)

/-- The conductance entries in the closed per-element form used by the spec:
the sum of the stamp contributions of all resistors. -/
def Gdirect {α : Type} [Field α] (rs : List (Elem α)) (i j : ℕ) : α :=
  (rs.map fun e => gContrib e i j).sum

/-- Column k of the incidence entries as §4.3 describes it, with Python's
sequential assignment order made explicit: the -1 assignment at n2 is applied
after the +1 assignment at n1, so it wins when both land on the same row. -/
def Bdirect {α : Type} [Field α] (vs : List (Elem α)) (i k : ℕ) : α :=
  match vs[k]? with
  | none => 0
  | some e =>
    if e.n2 ≠ 0 ∧ i = rowIdx e.n2 then -1
    else if e.n1 ≠ 0 ∧ i = rowIdx e.n1 then 1
    else 0

/-- The right-hand side as §3 describes it: zero on the top n entries, and the
value of source k at entry n + k. -/
def zdirect {α : Type} [Field α] (n : ℕ) (vs : List (Elem α)) (i : ℕ) : α :=
  if i < n then 0
  else
    match vs[i - n]? with
    | none => 0
    | some e => e.val

theorem stampResistor_apply {α : Type} [Field α] (G : ℕ → ℕ → α) (e : Elem α)
    (i j : ℕ) : stampResistor G e i j = G i j + gContrib e i j := by
  by_cases h1 : e.n1 = 0 <;> by_cases h2 : e.n2 = 0 <;>
    simp only [stampResistor, gContrib, addAt, h1, h2, ne_eq, not_true_eq_false,
      not_false_eq_true, if_true, if_false, true_and, false_and, and_true, and_false,
      and_self, ite_false, ite_true] <;>
    (try split_ifs) <;> ring

theorem buildGAux_apply {α : Type} [Field α] (rs : List (Elem α)) :
    ∀ (G : ℕ → ℕ → α) (i j : ℕ), buildGAux G rs i j = G i j + Gdirect rs i j := by
  induction rs with
  | nil => intro G i j; simp [buildGAux, Gdirect]
  | cons e t ih =>
    intro G i j
    have hstep : buildGAux G (e :: t) = buildGAux (stampResistor G e) t := rfl
    rw [hstep, ih, stampResistor_apply]
    simp only [Gdirect, List.map_cons, List.sum_cons]
    ring

theorem buildG_eq {α : Type} [Field α] (rs : List (Elem α)) (i j : ℕ) :
    buildG rs i j = Gdirect rs i j := by
  rw [buildG, buildGAux_apply]
  simp

theorem gContrib_symm {α : Type} [Field α] (e : Elem α) (i j : ℕ) :
    gContrib e i j = gContrib e j i := by
  unfold gContrib
  have h1 : (if e.n1 ≠ 0 ∧ j = rowIdx e.n1 ∧ i = rowIdx e.n1 then 1 / e.val else (0 : α))
      = (if e.n1 ≠ 0 ∧ i = rowIdx e.n1 ∧ j = rowIdx e.n1 then 1 / e.val else 0) :=
    if_congr (by tauto) rfl rfl
  have h2 : (if e.n2 ≠ 0 ∧ j = rowIdx e.n2 ∧ i = rowIdx e.n2 then 1 / e.val else (0 : α))
      = (if e.n2 ≠ 0 ∧ i = rowIdx e.n2 ∧ j = rowIdx e.n2 then 1 / e.val else 0) :=
    if_congr (by tauto) rfl rfl
  have h3 : (if e.n1 ≠ 0 ∧ e.n2 ≠ 0 ∧ j = rowIdx e.n1 ∧ i = rowIdx e.n2 then 1 / e.val else (0 : α))
      = (if e.n1 ≠ 0 ∧ e.n2 ≠ 0 ∧ i = rowIdx e.n2 ∧ j = rowIdx e.n1 then 1 / e.val else 0) :=
    if_congr (by tauto) rfl rfl
  have h4 : (if e.n1 ≠ 0 ∧ e.n2 ≠ 0 ∧ j = rowIdx e.n2 ∧ i = rowIdx e.n1 then 1 / e.val else (0 : α))
      = (if e.n1 ≠ 0 ∧ e.n2 ≠ 0 ∧ i = rowIdx e.n1 ∧ j = rowIdx e.n2 then 1 / e.val else 0) :=
    if_congr (by tauto) rfl rfl
  rw [h1, h2, h3, h4]
  ring

theorem buildG_symm {α : Type} [Field α] (rs : List (Elem α)) (i j : ℕ) :
    buildG rs i j = buildG rs j i := by
  rw [buildG_eq, buildG_eq, Gdirect, Gdirect]
  exact congrArg List.sum (List.map_congr_left fun e _ => gContrib_symm e i j)

theorem stampSource_apply_self {α : Type} [Field α] (B : ℕ → ℕ → α) (k : ℕ)
    (e : Elem α) (i : ℕ) :
    stampSource B k e i k =
      if e.n2 ≠ 0 ∧ i = rowIdx e.n2 then -1
      else if e.n1 ≠ 0 ∧ i = rowIdx e.n1 then 1
      else B i k := by
  by_cases h1 : e.n1 = 0 <;> by_cases h2 : e.n2 = 0 <;>
    simp only [stampSource, setAt, h1, h2, ne_eq, not_true_eq_false, not_false_eq_true,
      if_true, if_false, true_and, false_and, and_true, and_self, ite_false, ite_true] <;>
    (try split_ifs) <;> rfl

theorem stampSource_apply_ne {α : Type} [Field α] (B : ℕ → ℕ → α) (k : ℕ)
    (e : Elem α) (i c : ℕ) (hc : c ≠ k) : stampSource B k e i c = B i c := by
  by_cases h1 : e.n1 = 0 <;> by_cases h2 : e.n2 = 0 <;>
    simp only [stampSource, setAt, h1, h2, ne_eq, not_true_eq_false, not_false_eq_true,
      if_true, if_false, ite_false, ite_true] <;>
    (try split_ifs) <;> first | rfl | omega

theorem buildBAux_lt {α : Type} [Field α] (vs : List (Elem α)) :
    ∀ (s : ℕ) (B : ℕ → ℕ → α) (i c : ℕ), c < s → buildBAux s B vs i c = B i c := by
  induction vs with
  | nil => intro s B i c _; rfl
  | cons e t ih =>
    intro s B i c hc
    rw [buildBAux, ih (s + 1) _ i c (by omega), stampSource_apply_ne]
    omega

theorem buildBAux_get {α : Type} [Field α] (vs : List (Elem α)) :
    ∀ (s : ℕ) (B : ℕ → ℕ → α) (i d : ℕ),
      buildBAux s B vs i (s + d) =
        match vs[d]? with
        | none => B i (s + d)
        | some e =>
          if e.n2 ≠ 0 ∧ i = rowIdx e.n2 then -1
          else if e.n1 ≠ 0 ∧ i = rowIdx e.n1 then 1
          else B i (s + d) := by
  induction vs with
  | nil => intro s B i d; rfl
  | cons e t ih =>
    intro s B i d
    have hstep : buildBAux s B (e :: t) = buildBAux (s + 1) (stampSource B s e) t := rfl
    match d with
    | 0 =>
      rw [hstep, buildBAux_lt t (s + 1) _ i (s + 0) (by omega)]
      simp only [List.getElem?_cons_zero, Nat.add_zero]
      exact stampSource_apply_self B s e i
    | d + 1 =>
      have harith : s + (d + 1) = (s + 1) + d := by omega
      rw [hstep, harith, ih (s + 1) _ i d]
      have hns : (s + 1) + d ≠ s := by omega
      simp only [List.getElem?_cons_succ]
      cases t[d]? with
      | none => simp only [stampSource_apply_ne _ _ _ _ _ hns, harith]
      | some f => simp only [stampSource_apply_ne _ _ _ _ _ hns, harith]

theorem buildB_eq {α : Type} [Field α] (vs : List (Elem α)) (i k : ℕ) :
    buildB vs i k = Bdirect vs i k := by
  have h := buildBAux_get vs 0 (fun _ _ => 0) i k
  rw [Nat.zero_add] at h
  rw [buildB, h, Bdirect]

theorem buildzAux_low {α : Type} (n : ℕ) (vs : List (Elem α)) :
    ∀ (s : ℕ) (z : ℕ → α) (i : ℕ), i < n + s → buildzAux n s z vs i = z i := by
  induction vs with
  | nil => intro s z i _; rfl
  | cons e t ih =>
    intro s z i hi
    rw [buildzAux, ih (s + 1) _ i (by omega), setVecAt]
    rw [if_neg (by omega)]

theorem buildzAux_get {α : Type} (n : ℕ) (vs : List (Elem α)) :
    ∀ (s : ℕ) (z : ℕ → α) (d : ℕ),
      buildzAux n s z vs (n + s + d) =
        match vs[d]? with
        | none => z (n + s + d)
        | some e => e.val := by
  induction vs with
  | nil => intro s z d; rfl
  | cons e t ih =>
    intro s z d
    match d with
    | 0 =>
      rw [buildzAux, buildzAux_low n t (s + 1) _ (n + s + 0) (by omega), setVecAt]
      simp
    | d + 1 =>
      have harith : n + s + (d + 1) = n + (s + 1) + d := by omega
      rw [buildzAux, harith, ih (s + 1) _ d]
      simp only [List.getElem?_cons_succ]
      cases t[d]? with
      | none => rw [setVecAt, if_neg (by omega)]
      | some f => rfl

theorem buildz_eq {α : Type} [Field α] (n : ℕ) (vs : List (Elem α)) (i : ℕ) :
    buildz n vs i = zdirect n vs i := by
  by_cases hi : i < n
  · rw [buildz, buildzAux_low n vs 0 _ i (by omega), zdirect, if_pos hi]
  · have hrep : i = n + 0 + (i - n) := by omega
    rw [buildz, hrep, buildzAux_get n vs 0]
    rw [zdirect, if_neg (by omega)]
    have hidx : n + 0 + (i - n) - n = i - n := by omega
    rw [hidx]

theorem myDet_eq_det {α : Type} [Field α] :
    ∀ {k : ℕ} (A : Matrix (Fin k) (Fin k) α), myDet A = A.det
  | 0, A => by rw [Matrix.det_fin_zero]; rfl
  | k + 1, A => by
    rw [Matrix.det_succ_row_zero]
    show ∑ j : Fin (k + 1), (-1) ^ (j : ℕ) * A 0 j * myDet (A.submatrix Fin.succ j.succAbove) = _
    exact Finset.sum_congr rfl fun j _ => by rw [myDet_eq_det]

/-- On a regular matrix, the modelled np.linalg.solve returns any vector that
solves the system (hence the unique solution). -/
theorem npSolve_eq_of_mulVec {α : Type} [Field α] [DecidableEq α] {k : ℕ}
    {A : Matrix (Fin k) (Fin k) α} {x z : Fin k → α}
    (hdet : A.det ≠ 0) (hx : A.mulVec x = z) : npSolve A z = .ok x := by
  have hd : myDet A = A.det := myDet_eq_det A
  rw [npSolve, if_neg (by rw [hd]; exact hdet)]
  congr 1
  funext j
  rw [hd, myDet_eq_det, ← Matrix.cramer_apply, ← hx]
  have h2 : Matrix.cramer A (A.mulVec x) = A.det • x := by
    rw [Matrix.cramer_eq_adjugate_mulVec, Matrix.mulVec_mulVec, Matrix.adjugate_mul,
      Matrix.smul_mulVec_assoc, Matrix.one_mulVec]
  rw [h2, Pi.smul_apply, smul_eq_mul, mul_div_cancel_left₀ _ hdet]

/-- The modelled np.linalg.solve raises LinAlgError exactly on singular input. -/
theorem npSolve_error_iff {α : Type} [Field α] [DecidableEq α] {k : ℕ}
    (A : Matrix (Fin k) (Fin k) α) (z : Fin k → α) :
    npSolve A z = .error .linAlgError ↔ A.det = 0 := by
  rw [npSolve, myDet_eq_det]
  split_ifs with h
  · simp [h]
  · simp [h]

theorem maxfold_le {ν : Type} (t : List (Elem ν)) :
    ∀ a : ℤ, a ≤ t.foldl (fun acc x => max acc (max x.n1 x.n2)) a := by
  induction t with
  | nil => intro a; exact le_refl a
  | cons x s ih =>
    intro a
    calc a ≤ max a (max x.n1 x.n2) := le_max_left _ _
    _ ≤ s.foldl (fun acc y => max acc (max y.n1 y.n2)) (max a (max x.n1 x.n2)) := ih _

theorem maxfold_mem_le {ν : Type} (t : List (Elem ν)) :
    ∀ (a : ℤ) (e : Elem ν), e ∈ t →
      max e.n1 e.n2 ≤ t.foldl (fun acc x => max acc (max x.n1 x.n2)) a := by
  induction t with
  | nil => intro _ _ h; exact absurd h (List.not_mem_nil _)
  | cons x s ih =>
    intro a e he
    rcases List.mem_cons.mp he with h | h
    · subst h
      calc max e.n1 e.n2 ≤ max a (max e.n1 e.n2) := le_max_right _ _
      _ ≤ s.foldl (fun acc y => max acc (max y.n1 y.n2)) (max a (max e.n1 e.n2)) :=
        maxfold_le s _
    · exact ih _ e h

theorem maxfold_attained {ν : Type} (t : List (Elem ν)) :
    ∀ a : ℤ, t.foldl (fun acc x => max acc (max x.n1 x.n2)) a = a ∨
      ∃ e ∈ t, t.foldl (fun acc x => max acc (max x.n1 x.n2)) a = max e.n1 e.n2 := by
  induction t with
  | nil => intro a; exact Or.inl rfl
  | cons x s ih =>
    intro a
    have hfold : (x :: s).foldl (fun acc y => max acc (max y.n1 y.n2)) a
        = s.foldl (fun acc y => max acc (max y.n1 y.n2)) (max a (max x.n1 x.n2)) := rfl
    rcases ih (max a (max x.n1 x.n2)) with h | ⟨e, he, h⟩
    · rcases max_choice a (max x.n1 x.n2) with hm | hm
      · exact Or.inl (by rw [hfold, h, hm])
      · exact Or.inr ⟨x, List.mem_cons_self x s, by rw [hfold, h, hm]⟩
    · exact Or.inr ⟨e, List.mem_cons_of_mem x he, by rw [hfold, h]⟩

/-- The assembled MNA matrix is symmetric: the conductance block is symmetric
by the resistor stamp, the lower-left block is the transpose of the upper
right, and the lower-right block is zero. -/
theorem Amat_transpose {α : Type} [Field α] (rs vs : List (Elem α)) (n m : ℕ) :
    Matrix.transpose (Amat rs vs n m) = Amat rs vs n m := by
  ext i j
  show Amat rs vs n m j i = Amat rs vs n m i j
  simp only [Amat, Matrix.of_apply, blockA]
  by_cases hi : (i : ℕ) < n <;> by_cases hj : (j : ℕ) < n <;>
    simp only [hi, hj, if_true, if_false, ite_true, ite_false]
  exact buildG_symm rs j i

/-- The assembled matrix has the block form [[G, B], [C, D]] of §3 with C the
transpose of B and D = 0: through the sum-index equivalence, A is
Matrix.fromBlocks of the conductance block, the incidence block, its
transpose, and a zero block. -/
theorem Amat_eq_fromBlocks {α : Type} [Field α] (rs vs : List (Elem α)) (n m : ℕ) :
    Amat rs vs n m = Matrix.submatrix
      (Matrix.fromBlocks
        (Matrix.of fun i j : Fin n => buildG rs (i : ℕ) (j : ℕ))
        (Matrix.of fun (i : Fin n) (k : Fin m) => buildB vs (i : ℕ) (k : ℕ))
        (Matrix.transpose (Matrix.of fun (i : Fin n) (k : Fin m) => buildB vs (i : ℕ) (k : ℕ)))
        0)
      finSumFinEquiv.symm finSumFinEquiv.symm := by
  ext i j
  refine Fin.addCases (fun i0 => ?_) (fun i0 => ?_) i <;>
    refine Fin.addCases (fun j0 => ?_) (fun j0 => ?_) j
  · simp only [Amat, Matrix.of_apply, blockA, Matrix.submatrix_apply,
      finSumFinEquiv_symm_apply_castAdd, Matrix.fromBlocks_apply₁₁,
      Fin.coe_castAdd, Fin.is_lt, if_true, ite_true]
  · simp only [Amat, Matrix.of_apply, blockA, Matrix.submatrix_apply,
      finSumFinEquiv_symm_apply_castAdd, finSumFinEquiv_symm_apply_natAdd,
      Matrix.fromBlocks_apply₁₂, Fin.coe_castAdd, Fin.coe_natAdd]
    rw [if_pos (Fin.is_lt i0), if_neg (by omega), Nat.add_sub_cancel_left]
  · simp only [Amat, Matrix.of_apply, blockA, Matrix.submatrix_apply,
      finSumFinEquiv_symm_apply_castAdd, finSumFinEquiv_symm_apply_natAdd,
      Matrix.fromBlocks_apply₂₁, Matrix.transpose_apply, Fin.coe_castAdd, Fin.coe_natAdd]
    rw [if_neg (by omega), if_pos (Fin.is_lt j0), Nat.add_sub_cancel_left]
  · simp only [Amat, Matrix.of_apply, blockA, Matrix.submatrix_apply,
      finSumFinEquiv_symm_apply_natAdd, Matrix.fromBlocks_apply₂₂,
      Fin.coe_natAdd, Matrix.zero_apply]
    rw [if_neg (by omega), if_neg (by omega)]

/-- Unfolding of simulateElems on the solvable path. -/
theorem simulateElems_of_solve {α : Type} [Field α] [DecidableEq α]
    {rs vs : List (Elem α)} {nz : ℤ} {x : Fin (nz.toNat + vs.length) → α}
    (hmax : maxNodeZ (rs ++ vs) = some nz) (hnn : 0 ≤ nz)
    (hsolve : npSolve (Amat rs vs nz.toNat vs.length) (zvec nz.toNat vs.length vs) = .ok x) :
    simulateElems rs vs = .ok (.report
      (List.ofFn fun i : Fin nz.toNat => x (Fin.castAdd vs.length i))
      (List.ofFn fun s : Fin vs.length => x (Fin.natAdd nz.toNat s))
      (rs.map fun e =>
        ((if e.n1 ≠ 0 then
            (List.ofFn fun i : Fin nz.toNat => x (Fin.castAdd vs.length i)).getD (rowIdx e.n1) 0
          else 0)
         - (if e.n2 ≠ 0 then
            (List.ofFn fun i : Fin nz.toNat => x (Fin.castAdd vs.length i)).getD (rowIdx e.n2) 0
          else 0)) / e.val)) := by
  simp only [simulateElems, hmax]
  rw [if_neg (by omega)]
  simp only [hsolve]

/-- Unfolding of simulateElems on the singular path. -/
theorem simulateElems_of_singular {α : Type} [Field α] [DecidableEq α]
    {rs vs : List (Elem α)} {nz : ℤ}
    (hmax : maxNodeZ (rs ++ vs) = some nz) (hnn : 0 ≤ nz)
    (hsing : (Amat rs vs nz.toNat vs.length).det = 0) :
    simulateElems rs vs = .ok (.diagnostic
      "❌ Circuit cannot be solved (singular matrix). Check connections.") := by
  simp only [simulateElems, hmax]
  rw [if_neg (by omega)]
  simp only [(npSolve_error_iff (Amat rs vs nz.toNat vs.length)
    (zvec nz.toNat vs.length vs)).mpr hsing]

theorem toList_mk (l : List Char) : (String.mk l).toList = l := rfl

/-- C7 (amended): on an empty parsed element set, simulate_circuit fails
before any matrix assembly, but with the generic Python ValueError raised by
max() over an empty sequence — app.py defines no TopologyError and performs
no dedicated emptiness check.  The failure does come before any matrix
work: the modelled simulation returns this error without touching Amat. -/
theorem C7_empty_elements_valueError {α : Type} [Field α] [DecidableEq α] :
    simulateElems ([] : List (Elem α)) [] =
      .error (.valueError "max() arg is an empty sequence") := rfl

/-- C7 counterexample to the claim as stated, at the concrete empty netlist in
the DC domain: the simulation fails with ValueError from max(), not with any
dedicated TopologyError (no such error type exists in app.py). -/
theorem C7_counterexample :
    simulateElems ([] : List (Elem ℚ)) [] =
      .error (.valueError "max() arg is an empty sequence") := rfl

/-- C3: evaluating the parser at the failing input "C1 0 1 1e-6": the line has
four tokens and an unrecognized leading character, and parse_circuit_file
silently drops it — parsing succeeds with both element lists empty instead of
raising the ParseError the spec requires. -/
theorem C3_unrecognized_prefix_dropped :
    parse_circuit_file_DC "C1 0 1 1e-6" = .ok ([], []) := by
  have ht : "C1 0 1 1e-6".toList =
      ['C', '1', ' ', '0', ' ', '1', ' ', '1', 'e', '-', '6'] := by decide
  simp +decide [parse_circuit_file_DC, pySplitLines, ht, splitLinesAux, parseLinesAux,
    pyStrip, startsWithHash, pySplitWs, splitWsAux, toList_mk, processTokens,
    pyInt?, pyIntL?, digitsOnly?, digitsVal, digitVal, parseValDC, pyFloat?,
    pyFloatL?, pyFloatUnsigned, expPart, expDigits, mantissaVal]

/-- C10: the parser applies Python int() to the node tokens with no sign or
range check, so any integer-literal node tokens parse — negative ones
included — and the element carries the possibly negative node numbers; a node
token that is not an integer literal makes int() raise ValueError (shown on
the first node token).  This confirms the claim. -/
theorem C10_negative_nodes_parse (s1 s2 s3 : String) (a b : ℤ)
    (h1 : pyInt? s1 = some a) (h2 : pyInt? s2 = some b) (h3 : pyInt? s3 = none) :
    processTokens parseValDC ["R1", s1, s2, "10"] = .ok (some (.inl ⟨"R1", a, b, 10⟩))
    ∧ processTokens parseValDC ["R1", s3, s2, "10"] =
        .error (.valueError "invalid literal for int() with base 10") := by
  have hv : parseValDC "10" = .ok (10 : ℚ) := by
    have ht : "10".toList = ['1', '0'] := by decide
    simp +decide [parseValDC, pyFloat?, ht, pyFloatL?, pyFloatUnsigned, expPart,
      mantissaVal, digitsVal, digitVal]
  constructor
  · simp only [processTokens, h1, h2, hv]
    simp +decide
  · simp only [processTokens, h3]

/-- C10 witness: the node token -1 is an integer literal with a leading minus
sign and parses to the node number -1 with no error, both at token level and
on the full line R1 -1 2 10; the non-integer token abc fails. -/
theorem C10_negative_nodes_parse_witness :
    pyInt? "-1" = some (-1) ∧ pyInt? "abc" = none
    ∧ processTokens parseValDC ["R1", "-1", "2", "10"] =
        .ok (some (.inl ⟨"R1", -1, 2, 10⟩))
    ∧ processTokens parseValDC ["R1", "abc", "2", "10"] =
        .error (.valueError "invalid literal for int() with base 10")
    ∧ parse_circuit_file_DC "R1 -1 2 10" = .ok ([⟨"R1", -1, 2, 10⟩], []) := by
  refine ⟨by decide, by decide, ?_, ?_, ?_⟩
  · exact (C10_negative_nodes_parse "-1" "2" "abc" (-1) 2 (by decide) (by decide)
      (by decide)).1
  · exact (C10_negative_nodes_parse "-1" "2" "abc" (-1) 2 (by decide) (by decide)
      (by decide)).2
  · have ht : "R1 -1 2 10".toList =
        ['R', '1', ' ', '-', '1', ' ', '2', ' ', '1', '0'] := by decide
    simp +decide [parse_circuit_file_DC, pySplitLines, ht, splitLinesAux, parseLinesAux,
      pyStrip, startsWithHash, pySplitWs, splitWsAux, toList_mk, processTokens,
      pyInt?, pyIntL?, digitsOnly?, digitsVal, digitVal, parseValDC, pyFloat?,
      pyFloatL?, pyFloatUnsigned, expPart, expDigits, mantissaVal]

theorem acToComplex_phasor_re_im (m d : ℚ) :
    (acToComplex (.phasor m d)).re = (m : ℝ) * Real.cos ((d : ℝ) * Real.pi / 180)
    ∧ (acToComplex (.phasor m d)).im = (m : ℝ) * Real.sin ((d : ℝ) * Real.pi / 180) := by
  have hdef : acToComplex (.phasor m d)
      = ((m : ℝ) : ℂ) * Complex.exp ((((d : ℝ) * Real.pi / 180 : ℝ) : ℂ) * Complex.I) := rfl
  rw [hdef, Complex.exp_mul_I]
  constructor <;>
    simp only [Complex.add_re, Complex.add_im, Complex.mul_re, Complex.mul_im,
      Complex.ofReal_re, Complex.ofReal_im, Complex.cos_ofReal_re, Complex.sin_ofReal_re,
      Complex.cos_ofReal_im, Complex.sin_ofReal_im, Complex.I_re, Complex.I_im] <;>
    ring

/-- C5: AC value literals parse as the claim states.  A phasor literal
magnitude∠phase (the phase may carry an explicit leading + or -) denotes the
complex number magnitude * (cos phase_rad + j sin phase_rad) with the phase
converted from degrees to radians, and a bare real literal denotes that real
with zero imaginary part: 10∠30 is magnitude 10 phase 30, 5∠-45 is magnitude
5 phase -45, bare 5 is the real 5.  Both the inline AC rule of
parse_circuit_file and the module-level parse_value helper agree on these
inputs.  This confirms the claim. -/
theorem C5_phasor_parsing :
    (∀ m d : ℚ, (acToComplex (.phasor m d)).re = (m : ℝ) * Real.cos ((d : ℝ) * Real.pi / 180)
      ∧ (acToComplex (.phasor m d)).im = (m : ℝ) * Real.sin ((d : ℝ) * Real.pi / 180))
    ∧ parseValAC "10∠30" = .ok (.phasor 10 30)
    ∧ parseValAC "5∠-45" = .ok (.phasor 5 (-45))
    ∧ parseValAC "5∠+45" = .ok (.phasor 5 45)
    ∧ parseValAC "5" = .ok (.real 5)
    ∧ (∀ r : ℚ, (acToComplex (.real r)).re = (r : ℝ) ∧ (acToComplex (.real r)).im = 0)
    ∧ parse_value "10∠30" = .ok (.phasor 10 30)
    ∧ parse_value "5∠-45" = .ok (.phasor 5 (-45)) := by
  have ht1 : "10∠30".toList = ['1', '0', '∠', '3', '0'] := by decide
  have ht2 : "5∠-45".toList = ['5', '∠', '-', '4', '5'] := by decide
  have ht3 : "5∠+45".toList = ['5', '∠', '+', '4', '5'] := by decide
  have ht4 : "5".toList = ['5'] := by decide
  refine ⟨acToComplex_phasor_re_im, ?_, ?_, ?_, ?_, ?_, ?_, ?_⟩
  · simp +decide [parseValAC, ht1, phasorMatch, isDigitDot, pyFloatL?, pyFloatUnsigned,
      expPart, mantissaVal, digitsVal, digitVal]
  · simp +decide [parseValAC, ht2, phasorMatch, isDigitDot, pyFloatL?, pyFloatUnsigned,
      expPart, mantissaVal, digitsVal, digitVal]
  · simp +decide [parseValAC, ht3, phasorMatch, isDigitDot, pyFloatL?, pyFloatUnsigned,
      expPart, mantissaVal, digitsVal, digitVal]
  · simp +decide [parseValAC, ht4, phasorMatch, isDigitDot, pyFloatL?, pyFloatUnsigned,
      expPart, mantissaVal, digitsVal, digitVal]
  · intro r; exact ⟨rfl, rfl⟩
  · simp +decide [parse_value, ht1, splitAngleAux, pyFloatL?, pyFloatUnsigned,
      expPart, mantissaVal, digitsVal, digitVal]
  · simp +decide [parse_value, ht2, splitAngleAux, pyFloatL?, pyFloatUnsigned,
      expPart, mantissaVal, digitsVal, digitVal]

/-- C4 counterexample: in AC mode the phasor branch of lines 35-43 runs on
every value token before the element dispatch of lines 47-50, so the resistor
line R1 0 1 10∠90 parses to a resistor carrying the phasor value 10∠90, whose
complex amplitude has imaginary part 10 — not zero as the claim requires. -/
theorem C4_counterexample :
    parse_circuit_file_AC "R1 0 1 10∠90" = .ok ([⟨"R1", 0, 1, .phasor 10 90⟩], [])
    ∧ (acToComplex (.phasor 10 90)).im ≠ 0 := by
  constructor
  · have ht : "R1 0 1 10∠90".toList =
        ['R', '1', ' ', '0', ' ', '1', ' ', '1', '0', '∠', '9', '0'] := by decide
    simp +decide [parse_circuit_file_AC, pySplitLines, ht, splitLinesAux, parseLinesAux,
      pyStrip, startsWithHash, pySplitWs, splitWsAux, toList_mk, processTokens,
      pyInt?, pyIntL?, digitsOnly?, digitsVal, digitVal, parseValAC, phasorMatch,
      isDigitDot, pyFloatL?, pyFloatUnsigned, expPart, mantissaVal]
  · rw [(acToComplex_phasor_re_im 10 90).2]
    have h90 : ((90 : ℚ) : ℝ) * Real.pi / 180 = Real.pi / 2 := by
      push_cast
      ring
    rw [h90, Real.sin_pi_div_two]
    norm_num

/-- C4 (amended): in AC mode the value rule is element-independent — the same
phasor-aware conversion of lines 35-43 applies to the value token of every
line, resistors and sources alike, before the name dispatch, so a resistor
token without a marker parses to a real (zero imaginary part), but a resistor
token with a phasor marker parses to the full complex phasor, which can have a
nonzero imaginary part. -/
theorem C4_resistor_value_rule (s1 s2 v : String) (a b : ℤ) (w : ACVal) (q : ℚ)
    (h1 : pyInt? s1 = some a) (h2 : pyInt? s2 = some b) (h3 : parseValAC v = .ok w) :
    processTokens parseValAC ["R1", s1, s2, v] = .ok (some (.inl ⟨"R1", a, b, w⟩))
    ∧ processTokens parseValAC ["V1", s1, s2, v] = .ok (some (.inr ⟨"V1", a, b, w⟩))
    ∧ (acToComplex (.real q)).im = 0 := by
  refine ⟨?_, ?_, rfl⟩
  · simp only [processTokens, h1, h2, h3]
    simp +decide
  · simp only [processTokens, h1, h2, h3]
    simp +decide

/-- C4 witness: the amended rule at the concrete tokens of R1 0 1 10∠90 and
V1 0 1 10∠90, with the bare real 5 promoted with zero imaginary part. -/
theorem C4_resistor_value_rule_witness :
    pyInt? "0" = some 0 ∧ pyInt? "1" = some 1
    ∧ parseValAC "10∠90" = .ok (.phasor 10 90)
    ∧ processTokens parseValAC ["R1", "0", "1", "10∠90"] =
        .ok (some (.inl ⟨"R1", 0, 1, .phasor 10 90⟩))
    ∧ processTokens parseValAC ["V1", "0", "1", "10∠90"] =
        .ok (some (.inr ⟨"V1", 0, 1, .phasor 10 90⟩))
    ∧ (acToComplex (.real 5)).im = 0 := by
  have hv : parseValAC "10∠90" = .ok (.phasor 10 90) := by
    have ht : "10∠90".toList = ['1', '0', '∠', '9', '0'] := by decide
    simp +decide [parseValAC, ht, phasorMatch, isDigitDot, pyFloatL?, pyFloatUnsigned,
      expPart, mantissaVal, digitsVal, digitVal]
  refine ⟨by decide, by decide, hv, ?_, ?_, ?_⟩
  · exact (C4_resistor_value_rule "0" "1" "10∠90" 0 1 (.phasor 10 90) 5
      (by decide) (by decide) hv).1
  · exact (C4_resistor_value_rule "0" "1" "10∠90" 0 1 (.phasor 10 90) 5
      (by decide) (by decide) hv).2.1
  · exact (C4_resistor_value_rule "0" "1" "10∠90" 0 1 (.phasor 10 90) 5
      (by decide) (by decide) hv).2.2

/-- C9: for every pair of parsed element lists, the assembled block matrix A
equals its own transpose — the conductance block is symmetric by the resistor
stamp, the lower-left block is exactly the transpose of B, and the
lower-right block is the zero matrix — and the conductance block is itself
symmetric.  Confirms the claim, with no restriction on the element lists. -/
theorem C9_A_symmetric {α : Type} [Field α] (rs vs : List (Elem α)) (n m : ℕ) :
    Matrix.transpose (Amat rs vs n m) = Amat rs vs n m
    ∧ Matrix.transpose (Matrix.of fun i j : Fin n => buildG rs (i : ℕ) (j : ℕ))
      = Matrix.of fun i j : Fin n => buildG rs (i : ℕ) (j : ℕ) := by
  refine ⟨Amat_transpose rs vs n m, ?_⟩
  ext i j
  show buildG rs (j : ℕ) (i : ℕ) = buildG rs (i : ℕ) (j : ℕ)
  exact buildG_symm rs (j : ℕ) (i : ℕ)

/-- C8: when the assembled matrix A is singular, np.linalg.solve's LinAlgError
is caught by simulate_circuit, which returns the user-facing diagnostic of
line 90 telling the user the circuit cannot be solved and to check
connections — a normal return value, not a numeric exception — and the
diagnostic carries no node voltages, source currents, or resistor currents
(the constructor holds only the message string).  Confirms the claim. -/
theorem C8_singular_diagnostic {α : Type} [Field α] [DecidableEq α]
    (rs vs : List (Elem α)) (nz : ℤ)
    (hmax : maxNodeZ (rs ++ vs) = some nz) (hnn : 0 ≤ nz)
    (hsing : (Amat rs vs nz.toNat vs.length).det = 0) :
    simulateElems rs vs = .ok (.diagnostic
      "❌ Circuit cannot be solved (singular matrix). Check connections.") :=
  simulateElems_of_singular hmax hnn hsing

/-- C8 witness: the single resistor R1 1 2 10 with no path to ground gives a
singular 2-by-2 conductance matrix, and the simulation returns the diagnostic. -/
theorem C8_singular_diagnostic_witness :
    maxNodeZ ([(⟨"R1", 1, 2, (10 : ℚ)⟩ : Elem ℚ)] ++ ([] : List (Elem ℚ))) = some 2
    ∧ (Amat [(⟨"R1", 1, 2, (10 : ℚ)⟩ : Elem ℚ)] [] 2 0).det = 0
    ∧ simulateElems [(⟨"R1", 1, 2, (10 : ℚ)⟩ : Elem ℚ)] [] = .ok (.diagnostic
        "❌ Circuit cannot be solved (singular matrix). Check connections.") := by
  have hA : Amat [(⟨"R1", 1, 2, (10 : ℚ)⟩ : Elem ℚ)] [] 2 0 =
      Matrix.of ![![1/10, -(1/10)], ![-(1/10), 1/10]] := by
    ext i j
    fin_cases i <;> fin_cases j <;>
      simp +decide [Amat, blockA, buildG_eq, Gdirect, gContrib, rowIdx,
        Matrix.cons_val_zero, Matrix.cons_val_one, Matrix.head_cons]
  have hdet : (Amat [(⟨"R1", 1, 2, (10 : ℚ)⟩ : Elem ℚ)] [] 2 0).det = 0 := by
    rw [hA]
    rw [Matrix.det_fin_two]
    norm_num [Matrix.cons_val_zero, Matrix.cons_val_one, Matrix.head_cons]
  exact ⟨by decide, hdet,
    C8_singular_diagnostic [(⟨"R1", 1, 2, (10 : ℚ)⟩ : Elem ℚ)] [] 2 (by decide)
      (by decide) hdet⟩

/-- Full evaluation of the DC example netlist R1 0 1 10, V1 0 1 5: the solved
system has V(1) = -5, I(V1) = -1/2, and resistor current 1/2 from node 0 to
node 1. -/
theorem dc_single_eval :
    simulate_circuit_DC "R1 0 1 10\nV1 0 1 5" =
      .ok (.report [-5] [-(1/2)] [1/2]) := by
  have hparse : parse_circuit_file_DC "R1 0 1 10\nV1 0 1 5" =
      .ok ([⟨"R1", 0, 1, 10⟩], [⟨"V1", 0, 1, 5⟩]) := by
    have ht : "R1 0 1 10\nV1 0 1 5".toList =
        ['R', '1', ' ', '0', ' ', '1', ' ', '1', '0', '\n',
         'V', '1', ' ', '0', ' ', '1', ' ', '5'] := by decide
    simp +decide [parse_circuit_file_DC, pySplitLines, ht, splitLinesAux, parseLinesAux,
      pyStrip, startsWithHash, pySplitWs, splitWsAux, toList_mk, processTokens,
      pyInt?, pyIntL?, digitsOnly?, digitsVal, digitVal, parseValDC, pyFloat?,
      pyFloatL?, pyFloatUnsigned, expPart, expDigits, mantissaVal]
  have hA : Amat [(⟨"R1", 0, 1, (10 : ℚ)⟩ : Elem ℚ)] [⟨"V1", 0, 1, 5⟩] 1 1 =
      Matrix.of ![![1/10, -1], ![-1, 0]] := by
    ext i j
    fin_cases i <;> fin_cases j <;>
      simp +decide [Amat, blockA, buildG_eq, Gdirect, gContrib, buildB_eq, Bdirect,
        rowIdx, Matrix.cons_val_zero, Matrix.cons_val_one, Matrix.head_cons]
  have hz : zvec 1 1 [(⟨"V1", 0, 1, (5 : ℚ)⟩ : Elem ℚ)] =
      (fun i : Fin (1 + 1) => if i = 0 then 0 else 5) := by
    funext i
    fin_cases i <;> simp +decide [zvec, buildz_eq, zdirect]
  have hmul : (Matrix.of ![![1/10, -1], ![-1, 0]]).mulVec
      (fun i : Fin (1 + 1) => if i = 0 then (-5 : ℚ) else -(1/2)) =
      (fun i : Fin (1 + 1) => if i = 0 then 0 else 5) := by
    funext k
    fin_cases k <;>
      simp +decide [Matrix.mulVec, Matrix.dotProduct, Fin.sum_univ_two,
        Matrix.cons_val_zero, Matrix.cons_val_one, Matrix.head_cons] <;>
      norm_num
  have hdet : (Matrix.of ![![(1 : ℚ)/10, -1], ![-1, 0]]).det ≠ 0 := by
    rw [Matrix.det_fin_two]
    norm_num [Matrix.cons_val_zero, Matrix.cons_val_one, Matrix.head_cons]
  have hsolve : npSolve (Amat [(⟨"R1", 0, 1, (10 : ℚ)⟩ : Elem ℚ)] [⟨"V1", 0, 1, 5⟩] 1 1)
      (zvec 1 1 [(⟨"V1", 0, 1, (5 : ℚ)⟩ : Elem ℚ)]) =
      .ok (fun i : Fin (1 + 1) => if i = 0 then (-5 : ℚ) else -(1/2)) := by
    rw [hA, hz]
    exact npSolve_eq_of_mulVec hdet hmul
  have hsim := simulateElems_of_solve (by decide :
      maxNodeZ ([(⟨"R1", 0, 1, (10 : ℚ)⟩ : Elem ℚ)] ++ [⟨"V1", 0, 1, 5⟩]) = some 1)
    (by norm_num) hsolve
  simp only [simulate_circuit_DC, hparse]
  rw [hsim]
  simp +decide [List.ofFn_succ, List.ofFn_zero, rowIdx, List.getD]
  norm_num

/-- C1 (amended): for the DC netlist of the single resistor line R1 0 1 10 and
the single voltage-source line V1 0 1 5, the simulation reports node voltage
V(1) = -5.0000 V (not +5: the branch constraint is V(n1) - V(n2) = value with
n1 = 0 the + terminal, so V(1) = -5), source current I(V1) = -0.500000 A from
n1 to n2 as claimed, and resistor current 0.5 A from node 0 to node 1. -/
theorem C1_simulation_values :
    simulate_circuit_DC "R1 0 1 10\nV1 0 1 5" = .ok (.report [-5] [-(1/2)] [1/2])
    ∧ reportVoltage (simulate_circuit_DC "R1 0 1 10\nV1 0 1 5") 1 = -5 := by
  refine ⟨dc_single_eval, ?_⟩
  rw [dc_single_eval]
  rfl

/-- C1 counterexample to the claim as stated: the reported node voltage V(1)
for this netlist is -5, not the claimed 5.0000. -/
theorem C1_counterexample :
    reportVoltage (simulate_circuit_DC "R1 0 1 10\nV1 0 1 5") 1 ≠ 5 := by
  rw [dc_single_eval]
  norm_num [reportVoltage, List.getD]

/-- Symbolic evaluation of the voltage-divider netlist R1(0,1,Ra), R2(1,2,Rb),
V1(0,2,Vs): the MNA system solves to V(1) = -(Vs·Ra)/(Ra+Rb), V(2) = -Vs,
I(V1) = -Vs/(Ra+Rb). -/
theorem divider_eval {α : Type} [Field α] [DecidableEq α] (Ra Rb Vs : α)
    (hRa : Ra ≠ 0) (hRb : Rb ≠ 0) (hsum : Ra + Rb ≠ 0) (hd : 1 / Ra + 1 / Rb ≠ 0) :
    reportVoltage (simulateElems
      [(⟨"R1", 0, 1, Ra⟩ : Elem α), ⟨"R2", 1, 2, Rb⟩] [⟨"V1", 0, 2, Vs⟩]) 1
      = -(Vs * Ra) / (Ra + Rb) := by
  have hA : Amat [(⟨"R1", 0, 1, Ra⟩ : Elem α), ⟨"R2", 1, 2, Rb⟩] [⟨"V1", 0, 2, Vs⟩] 2 1 =
      Matrix.of ![![1 / Ra + 1 / Rb, -(1 / Rb), 0], ![-(1 / Rb), 1 / Rb, -1], ![0, -1, 0]] := by
    ext i j
    fin_cases i <;> fin_cases j <;>
      simp +decide [Amat, blockA, buildG_eq, Gdirect, gContrib, buildB_eq, Bdirect,
        rowIdx, Matrix.cons_val_zero, Matrix.cons_val_one, Matrix.head_cons] <;>
      try ring
  have hz : zvec 2 1 [(⟨"V1", 0, 2, Vs⟩ : Elem α)] =
      (fun i : Fin (2 + 1) => if (i : ℕ) < 2 then 0 else Vs) := by
    funext i
    fin_cases i <;> simp +decide [zvec, buildz_eq, zdirect]
  have hmul : (Matrix.of ![![1 / Ra + 1 / Rb, -(1 / Rb), 0], ![-(1 / Rb), 1 / Rb, -1],
        ![0, -1, 0]]).mulVec
      (fun i : Fin (2 + 1) => if i = 0 then -(Vs * Ra) / (Ra + Rb)
        else if i = 1 then -Vs else -Vs / (Ra + Rb)) =
      (fun i : Fin (2 + 1) => if (i : ℕ) < 2 then 0 else Vs) := by
    funext k
    fin_cases k <;>
      simp +decide [Matrix.mulVec, Matrix.dotProduct, Fin.sum_univ_three,
        Matrix.cons_val_zero, Matrix.cons_val_one, Matrix.head_cons] <;>
      field_simp <;> ring
  have hdetval : (Matrix.of ![![1 / Ra + 1 / Rb, -(1 / Rb), 0], ![-(1 / Rb), 1 / Rb, -1],
        ![0, -1, 0]]).det = -(1 / Ra + 1 / Rb) := by
    rw [Matrix.det_fin_three]
    simp [Matrix.cons_val_zero, Matrix.cons_val_one, Matrix.head_cons]
  have hdet : (Matrix.of ![![1 / Ra + 1 / Rb, -(1 / Rb), 0], ![-(1 / Rb), 1 / Rb, -1],
        ![0, -1, 0]]).det ≠ 0 := by
    rw [hdetval]
    exact neg_ne_zero.mpr hd
  have hsolve : npSolve
      (Amat [(⟨"R1", 0, 1, Ra⟩ : Elem α), ⟨"R2", 1, 2, Rb⟩] [⟨"V1", 0, 2, Vs⟩] 2 1)
      (zvec 2 1 [(⟨"V1", 0, 2, Vs⟩ : Elem α)]) =
      .ok (fun i : Fin (2 + 1) => if i = 0 then -(Vs * Ra) / (Ra + Rb)
        else if i = 1 then -Vs else -Vs / (Ra + Rb)) := by
    rw [hA, hz]
    exact npSolve_eq_of_mulVec hdet hmul
  have hmax : maxNodeZ ([(⟨"R1", 0, 1, Ra⟩ : Elem α), ⟨"R2", 1, 2, Rb⟩]
      ++ [⟨"V1", 0, 2, Vs⟩]) = some 2 := rfl
  have hsim := simulateElems_of_solve hmax (by norm_num) hsolve
  rw [hsim]
  simp +decide [reportVoltage, List.ofFn_succ, List.ofFn_zero, List.getD]

/-- C2 (amended): for every positive Ra, Rb and every Vs, the DC divider
netlist R1(0,1,Ra), R2(1,2,Rb), V1(0,2,Vs) solves to node voltage
V(1) = -(Vs·Ra)/(Ra+Rb).  The claimed value Vs·Rb/(Ra+Rb) is not the solved
node voltage: the branch constraint V(0) - V(2) = Vs pins node 2 to -Vs, and
the divider interpolates between ground and -Vs. -/
theorem C2_divider_voltage (Ra Rb Vs : ℝ) (hRa : 0 < Ra) (hRb : 0 < Rb) :
    reportVoltage (simulateElems
      [(⟨"R1", 0, 1, Ra⟩ : Elem ℝ), ⟨"R2", 1, 2, Rb⟩] [⟨"V1", 0, 2, Vs⟩]) 1
      = -(Vs * Ra) / (Ra + Rb) := by
  have hd : 1 / Ra + 1 / Rb ≠ 0 := by positivity
  exact divider_eval Ra Rb Vs (ne_of_gt hRa) (ne_of_gt hRb)
    (by positivity) hd

/-- C2 witness: the amended claim at Ra = Rb = 1, Vs = 2: the solved node
voltage V(1) is -(2·1)/(1+1) = -1. -/
theorem C2_divider_voltage_witness :
    (0 : ℝ) < 1 ∧ reportVoltage (simulateElems
      [(⟨"R1", 0, 1, (1 : ℝ)⟩ : Elem ℝ), ⟨"R2", 1, 2, 1⟩] [⟨"V1", 0, 2, 2⟩]) 1
      = -(2 * 1) / (1 + 1) :=
  ⟨by norm_num, C2_divider_voltage 1 1 2 (by norm_num) (by norm_num)⟩

/-- C2 counterexample to the claim as stated, at Ra = Rb = 1, Vs = 2 in the DC
domain: the claim predicts V(1) = Vs·Rb/(Ra+Rb) = 1, but the solved node
voltage is -1. -/
theorem C2_counterexample :
    reportVoltage (simulateElems
      [(⟨"R1", 0, 1, (1 : ℚ)⟩ : Elem ℚ), ⟨"R2", 1, 2, 1⟩] [⟨"V1", 0, 2, 2⟩]) 1
      ≠ 2 * 1 / (1 + 1) := by
  rw [divider_eval 1 1 2 (by norm_num) (by norm_num) (by norm_num) (by norm_num)]
  norm_num

/-- C6 counterexample: for the voltage source V1 1 1 5 with both terminals on
the same non-ground node, the claim requires B[n1-1, 0] = 1 (since n1 = 1 is
non-ground), but the later assignment B[n2-1, 0] = -1 of line 79 lands on the
same entry and overwrites it: the assembled entry is -1, not 1. -/
theorem C6_counterexample :
    buildB [(⟨"V1", 1, 1, (5 : ℚ)⟩ : Elem ℚ)] 0 0 = -1
    ∧ buildB [(⟨"V1", 1, 1, (5 : ℚ)⟩ : Elem ℚ)] 0 0 ≠ 1 := by
  constructor
  · decide
  · decide

/-- C6 (amended): for nonempty element lists, with nz the maximum node value
computed on line 58 and M the number of sources: nz bounds every node of every
element and is attained by one of them; the conductance entries are exactly
the per-resistor stamp sums of the spec; the incidence entries follow the
spec's source stamp with Python's sequential assignment order — the -1
assignment at n2 is applied after the +1 assignment at n1 and overwrites it
when both terminals are the same non-ground node, the only deviation from the
claim as stated; the right-hand side is zero on the top nz entries and
carries source k's value at entry nz + k; and the assembled matrix is the
block matrix [[G, B], [B transpose, 0]]. -/
theorem C6_assembler (α : Type) [Field α] (rs vs : List (Elem α)) (nz : ℤ)
    (hmax : maxNodeZ (rs ++ vs) = some nz) (hnn : 0 ≤ nz)
    (hval : ((rs ++ vs).all fun e => decide (0 ≤ e.n1) && decide (0 ≤ e.n2)) = true) :
    ((rs ++ vs).all fun e => decide (e.n1 ≤ nz) && decide (e.n2 ≤ nz)) = true
    ∧ ((rs ++ vs).any fun e => decide (e.n1 = nz) || decide (e.n2 = nz)) = true
    ∧ buildG rs = (fun i j => Gdirect rs i j)
    ∧ buildB vs = (fun i k => Bdirect vs i k)
    ∧ buildz nz.toNat vs = (fun i => zdirect nz.toNat vs i)
    ∧ Amat rs vs nz.toNat vs.length = Matrix.submatrix
        (Matrix.fromBlocks
          (Matrix.of fun i j : Fin nz.toNat => buildG rs (i : ℕ) (j : ℕ))
          (Matrix.of fun (i : Fin nz.toNat) (k : Fin vs.length) =>
            buildB vs (i : ℕ) (k : ℕ))
          (Matrix.transpose (Matrix.of fun (i : Fin nz.toNat) (k : Fin vs.length) =>
            buildB vs (i : ℕ) (k : ℕ)))
          0)
        finSumFinEquiv.symm finSumFinEquiv.symm
    ∧ zvec nz.toNat vs.length vs = (fun i : Fin (nz.toNat + vs.length) =>
        zdirect nz.toNat vs (i : ℕ)) := by
  obtain ⟨e0, t, hsplit⟩ : ∃ e0 t, rs ++ vs = e0 :: t := by
    cases hcase : rs ++ vs with
    | nil => rw [hcase] at hmax; exact absurd hmax (by simp [maxNodeZ])
    | cons a b => exact ⟨a, b, rfl⟩
  have hnz : nz = t.foldl (fun acc x => max acc (max x.n1 x.n2)) (max e0.n1 e0.n2) := by
    rw [hsplit] at hmax
    simp only [maxNodeZ, Option.some.injEq] at hmax
    exact hmax.symm
  have hle : ∀ e ∈ rs ++ vs, e.n1 ≤ nz ∧ e.n2 ≤ nz := by
    intro e he
    rw [hsplit] at he
    have hmaxle : max e.n1 e.n2 ≤ nz := by
      rcases List.mem_cons.mp he with h | h
      · subst h; rw [hnz]; exact maxfold_le t _
      · rw [hnz]; exact maxfold_mem_le t _ e h
    exact ⟨le_trans (le_max_left _ _) hmaxle, le_trans (le_max_right _ _) hmaxle⟩
  have hatt : ∃ e ∈ rs ++ vs, e.n1 = nz ∨ e.n2 = nz := by
    rcases maxfold_attained t (max e0.n1 e0.n2) with h | ⟨e, he, h⟩
    · refine ⟨e0, by rw [hsplit]; exact List.mem_cons_self e0 t, ?_⟩
      have hm0 : nz = max e0.n1 e0.n2 := by rw [hnz, h]
      rcases max_choice e0.n1 e0.n2 with hm | hm
      · exact Or.inl (hm0.trans hm).symm
      · exact Or.inr (hm0.trans hm).symm
    · refine ⟨e, by rw [hsplit]; exact List.mem_cons_of_mem e0 he, ?_⟩
      have hm0 : nz = max e.n1 e.n2 := by rw [hnz, h]
      rcases max_choice e.n1 e.n2 with hm | hm
      · exact Or.inl (hm0.trans hm).symm
      · exact Or.inr (hm0.trans hm).symm
  refine ⟨?_, ?_, ?_, ?_, ?_, Amat_eq_fromBlocks rs vs nz.toNat vs.length, ?_⟩
  · refine List.all_eq_true.mpr fun e he => ?_
    have h := hle e he
    simp only [Bool.and_eq_true, decide_eq_true_eq]
    exact h
  · obtain ⟨e, he, h⟩ := hatt
    refine List.any_eq_true.mpr ⟨e, he, ?_⟩
    simp only [Bool.or_eq_true, decide_eq_true_eq]
    exact h
  · funext i j; exact buildG_eq rs i j
  · funext i k; exact buildB_eq vs i k
  · funext i; exact buildz_eq nz.toNat vs i
  · funext i; exact buildz_eq nz.toNat vs (i : ℕ)

/-- Concrete divider resistor list used as the assembler witness input. -/
def wrs : List (Elem ℚ) := [⟨"R1", 0, 1, 1⟩, ⟨"R2", 1, 2, 1⟩]

/-- Concrete divider source list used as the assembler witness input. -/
def wvs : List (Elem ℚ) := [⟨"V1", 0, 2, 2⟩]

/-- C6 witness: the amended assembler characterization at the concrete divider
netlist R1(0,1,1), R2(1,2,1), V1(0,2,2) in the DC domain, where the maximum
node value is 2. -/
theorem C6_assembler_witness :
    maxNodeZ (wrs ++ wvs) = some 2
    ∧ ((wrs ++ wvs).all fun e => decide (0 ≤ e.n1) && decide (0 ≤ e.n2)) = true
    ∧ (((wrs ++ wvs).all fun e => decide (e.n1 ≤ (2 : ℤ)) && decide (e.n2 ≤ (2 : ℤ))) = true
      ∧ ((wrs ++ wvs).any fun e => decide (e.n1 = (2 : ℤ)) || decide (e.n2 = (2 : ℤ))) = true
      ∧ buildG wrs = (fun i j => Gdirect wrs i j)
      ∧ buildB wvs = (fun i k => Bdirect wvs i k)
      ∧ buildz (Int.toNat 2) wvs = (fun i => zdirect (Int.toNat 2) wvs i)
      ∧ Amat wrs wvs (Int.toNat 2) wvs.length = Matrix.submatrix
          (Matrix.fromBlocks
            (Matrix.of fun i j : Fin (Int.toNat 2) => buildG wrs (i : ℕ) (j : ℕ))
            (Matrix.of fun (i : Fin (Int.toNat 2)) (k : Fin wvs.length) =>
              buildB wvs (i : ℕ) (k : ℕ))
            (Matrix.transpose (Matrix.of fun (i : Fin (Int.toNat 2)) (k : Fin wvs.length) =>
              buildB wvs (i : ℕ) (k : ℕ)))
            0)
          finSumFinEquiv.symm finSumFinEquiv.symm
      ∧ zvec (Int.toNat 2) wvs.length wvs = (fun i : Fin (Int.toNat 2 + wvs.length) =>
          zdirect (Int.toNat 2) wvs (i : ℕ))) :=
  ⟨by decide, by decide, C6_assembler ℚ wrs wvs 2 (by decide) (by decide) (by decide)⟩

/-- C9 witness: the symmetry of the assembled matrix at the concrete divider
netlist, sized 2 nodes and 1 source. -/
theorem C9_A_symmetric_witness :
    Matrix.transpose (Amat wrs wvs 2 1) = Amat wrs wvs 2 1
    ∧ Matrix.transpose (Matrix.of fun i j : Fin 2 => buildG wrs (i : ℕ) (j : ℕ))
      = Matrix.of fun i j : Fin 2 => buildG wrs (i : ℕ) (j : ℕ) :=
  C9_A_symmetric wrs wvs 2 1

/-- C7 witness: the amended behaviour at the real (AC-typed) domain as well. -/
theorem C7_empty_elements_valueError_witness :
    simulateElems ([] : List (Elem ℝ)) [] =
      .error (.valueError "max() arg is an empty sequence") :=
  C7_empty_elements_valueError

end CircuitSim
